import Mathlib

/-!
Verification of the Glide execution engine (`src/content/ghostNavigator.ts`)
against its natural-language specification.

The TypeScript engine is shallowly embedded:
* JS strings are Lean `String`s; character-level operations (lowercasing,
  trimming, substring search, whitespace splitting) work on `String.data`
  (lists of characters), matching the JS semantics for the ASCII inputs
  the engine handles.
* JS numbers used by the similarity scorer are embedded as exact rationals
  (`Rat`); the scores produced are small ratios `m / n`, for which float64
  arithmetic and the `>= 0.6` comparison agree with exact arithmetic.
* The stateful engine (`executeFromStep` and friends) is embedded as a pure
  state-passing function over a `World` record holding the module-level
  lock, the durable storage slot, the ghost-highlight markers and the
  active-token flag.  The uncontrolled page DOM is abstracted by a `StepEnv`
  that decides, for each step index, what the step executor does.
* The `while` loop of the engine is written with explicit fuel; the caller
  supplies enough fuel for the whole step sequence, and the loop guard is
  the same `currentStep < steps.length` test as the source.
-/

namespace Glide

/-! ## Data model (src/types/manifest.ts) -/

/-- Step kinds of `ExecutionStepType`. -/
inductive StepType where
  | navigate
  | click
  | wait
  | fill
  | select
  | check
  | submit
  | notify
  | findRow
deriving DecidableEq, Repr

/-- Plan status, `ExecutionPlan.status`. -/
inductive PlanStatus where
  | pending
  | confirmed
  | executing
  | paused
  | completed
  | error
deriving DecidableEq, Repr

/-- One step of a plan (`ExecutionStep`).  Optional TS fields are `Option`s. -/
structure ExecutionStep where
  type : StepType
  target : Option String := none
  value : Option String := none
  waitFor : Option String := none
  errorSelector : Option String := none
  message : Option String := none
  action : Option String := none
deriving DecidableEq, Repr

/-- A plan (`ExecutionPlan`).  The entity record is an association list. -/
structure ExecutionPlan where
  id : String
  intent : String
  confidence : Rat
  entities : List (String × String)
  steps : List ExecutionStep
  confirmMessage : String
  currentStep : Nat
  status : PlanStatus
  error : Option String := none
deriving DecidableEq, Repr

/-- The persisted unit of the navigation hand-off (`ExecutionState`). -/
structure ExecutionState where
  plan : ExecutionPlan
  startedAt : Nat
  lastUpdated : Nat
deriving DecidableEq, Repr

/-- Result of an engine run (`ExecutionResult`).  The optional boolean
fields of the TS record are embedded as `Bool`s whose absence is `false`. -/
structure ExecutionResult where
  success : Bool
  completedSteps : Nat
  totalSteps : Nat
  message : String
  errors : Option (List String) := none
  navigating : Bool := false
  cancelled : Bool := false
deriving DecidableEq, Repr

/-- Structured result returned by a step executor. -/
structure StepResult where
  success : Bool
  needsNavigation : Bool := false
  error : Option String := none
  fatal : Bool := false
deriving DecidableEq, Repr

/-! ## JS string primitives

The engine uses `toLowerCase`, `trim`, `includes`, `split(/\s+/)`,
`split('|')`, `slice`, `startsWith` and `||` on strings.  They are embedded
over `List Char` / `String`. -/

/-- JS `a || b` on strings: `a` when truthy (non-empty), else `b`. -/
def jsOrS (a b : String) : String := if a = "" then b else a

/-- JS `toLowerCase` (ASCII range, as the engine's inputs). -/
def jsLower (s : List Char) : List Char := s.map Char.toLower

/-- JS `trim`: strip whitespace from both ends. -/
def jsTrim (s : List Char) : List Char :=
  ((s.dropWhile fun c => c.isWhitespace).reverse.dropWhile fun c => c.isWhitespace).reverse

/-- JS `hay.includes(needle)`: substring containment (empty needle matches). -/
def jsIncludes : List Char → List Char → Bool
  | [], needle => needle.isEmpty
  | c :: t, needle => needle.isPrefixOf (c :: t) || jsIncludes t needle

/-- Worker for `jsSplitWs`: scans the characters, tracking whether the scanner
is inside a whitespace run, and emits a segment at the start of each run and
at the end of the string — exactly the segments of JS `split(/\s+/)`. -/
def splitWsGo : Bool → List Char → List Char → List (List Char)
  | _, acc, [] => [acc.reverse]
  | inRun, acc, c :: t =>
    if c.isWhitespace then
      if inRun then splitWsGo true acc t
      else acc.reverse :: splitWsGo true [] t
    else splitWsGo false (c :: acc) t

/-- JS `s.split(/\s+/)`: split on maximal whitespace runs.  A leading run
produces a leading empty segment and `"".split` produces `[""]`, as in JS. -/
def jsSplitWs (s : List Char) : List (List Char) := splitWsGo false [] s

/-- Lowercase then trim — the normalisation both arguments of
`stringSimilarity` undergo (`x.toLowerCase().trim()`). -/
def simNorm (s : String) : List Char := jsTrim (jsLower s.data)

/-- JS `s.trim()` on a `String`. -/
def strTrim (s : String) : String := String.mk (jsTrim s.data)

/-! ## Fuzzy matching (`stringSimilarity`, `executeSelect` scoring)

The scores the engine computes are ratios of small naturals (`1`, `0.9`,
`matched / maxTokens`), and the only operations on them are `Math.max`,
`>` and `>= 0.6`.  They are embedded as exact unreduced fractions of
naturals with cross-multiplication comparisons; exact comparison of these
ratios agrees with the float64 comparisons of the source (the ratios and
the threshold are far outside rounding range of one another unless the
token counts are astronomically large).  `Score.toRat` interprets a score
as the rational number it denotes. -/

/-- An exact similarity score `num / den`. -/
structure Score where
  num : Nat
  den : Nat
deriving DecidableEq, Repr

/-- The rational value of a score. -/
def Score.toRat (s : Score) : Rat := (s.num : Rat) / (s.den : Rat)

/-- Strict value comparison of scores (positive denominators). -/
def Score.ltb (a b : Score) : Bool := a.num * b.den < b.num * a.den

/-- Non-strict value comparison of scores (positive denominators). -/
def Score.leb (a b : Score) : Bool := !Score.ltb b a

/-- JS `Math.max` on scores. -/
def maxScore (a b : Score) : Score := if Score.ltb a b then b else a

/-- Does the reference token `aw` have a containment relation with some
candidate token in `bWords`?  (`bWord.includes(aWord) || aWord.includes(bWord)`.) -/
def tokenMatched (bWords : List (List Char)) (aw : List Char) : Bool :=
  bWords.any fun bw => jsIncludes bw aw || jsIncludes aw bw

/-- `stringSimilarity(a, b)` of the source: 1 on a case-insensitive trimmed
exact match, 0.9 on substring containment either way, otherwise the number
of tokens of `a` matched in `b` divided by the larger token count. -/
def stringSimilarity (a b : String) : Score :=
  let aLower := simNorm a
  let bLower := simNorm b
  if aLower = bLower then ⟨1, 1⟩
  else if jsIncludes aLower bLower || jsIncludes bLower aLower then ⟨9, 10⟩
  else
    let aWords := jsSplitWs aLower
    let bWords := jsSplitWs bLower
    let matchedWords := (aWords.filter (tokenMatched bWords)).length
    ⟨matchedWords, max aWords.length bWords.length⟩

/-- An `<option>` element of the dropdown, as `executeSelect` sees it. -/
structure SelectOption where
  value : String
  text : String
  disabled : Bool := false
deriving DecidableEq, Repr

/-- The option filter of `executeSelect`:
`opt.value && opt.value !== '' && !opt.disabled`. -/
def validOptions (opts : List SelectOption) : List SelectOption :=
  opts.filter fun o => o.value != "" && !o.disabled

/-- Score of one option: the maximum of the similarity against its value
and against its visible text. -/
def optionScore (value : String) (o : SelectOption) : Score :=
  maxScore (stringSimilarity value o.value) (stringSimilarity value o.text)

/-- One iteration of the best-match loop of `executeSelect`: the current
best is replaced only on a strictly greater score (`score > bestScore`). -/
def bestStep (value : String) (acc : Option SelectOption × Score)
    (o : SelectOption) : Option SelectOption × Score :=
  let s := optionScore value o
  if Score.ltb acc.2 s then (some o, s) else acc

/-- The best-match fold of `executeSelect`, starting from `(null, 0)`. -/
def bestOption (value : String) (opts : List SelectOption) :
    Option SelectOption × Score :=
  opts.foldl (bestStep value) (none, ⟨0, 1⟩)

/-- JS `arr.join(', ')`. -/
def joinComma : List String → String
  | [] => ""
  | [s] => s
  | s :: t => s ++ ", " ++ joinComma t

/-- The rejection message of `executeSelect`: desired value plus up to 5
available option texts, with a trailing ellipsis when more than 5 exist. -/
def availableMsg (value : String) (vopts : List SelectOption) : String :=
  "No match for \"" ++ value ++ "\". Available: " ++
    joinComma ((vopts.take 5).map fun o => o.text) ++
    (if vopts.length > 5 then "..." else "")

/-! ## Entity resolution (shared by fill / select / find-row) -/

/-- Lookup in the entity record (`entities[fieldName]`). -/
def lookupEntity (entities : List (String × String)) (k : String) : Option String :=
  (entities.find? fun p => p.1 == k).map Prod.snd

/-- The value resolution `entities[fieldName] || step.value || ''` with
`fieldName = step.value || ''` (a JS `undefined` read is falsy like `''`). -/
def resolveStepValue (stepValue : Option String) (entities : List (String × String)) : String :=
  let fieldName := stepValue.getD ""
  jsOrS (jsOrS ((lookupEntity entities fieldName).getD "") (stepValue.getD "")) ""

/-! ## Step executors (value-resolution and decision logic)

The DOM side of each executor (element lookup, typing, events) interacts
with the uncontrolled page; at this level the embedding keeps the pure
decision structure and records what would be written to the page. -/

/-- Outcome of `executeFill`: the structured result plus the value finally
written into the field (if any). -/
structure FillOutcome where
  result : StepResult
  written : Option String
deriving DecidableEq, Repr

/-- `executeFill` (src lines 331–418): selector check, value resolution via
`entities[fieldName] || step.value || ''`, fatal missing-value error,
fatal element-not-found error, otherwise the value is typed into the field
(and after verification the field holds exactly `value`). -/
def executeFill (stepTarget stepValue : Option String)
    (entities : List (String × String)) (elementFound : Bool) : FillOutcome :=
  if stepTarget.getD "" = "" then
    ⟨{ success := false, error := some "No selector specified" }, none⟩
  else
    let fieldName := stepValue.getD ""
    let value := resolveStepValue stepValue entities
    if value = "" then
      ⟨{ success := false,
         error := some ("No value provided for field \"" ++ fieldName ++ "\""),
         fatal := true }, none⟩
    else if !elementFound then
      ⟨{ success := false, error := some ("Element not found: " ++ stepTarget.getD ""),
         fatal := true }, none⟩
    else
      ⟨{ success := true }, some value⟩

/-- Outcome of `executeSelect`: the structured result plus the option value
assigned to the dropdown (if any). -/
structure SelectOutcome where
  result : StepResult
  selected : Option String
deriving DecidableEq, Repr

/-- `executeSelect` (src lines 465–535): selector check, value resolution,
fatal missing-value / not-found / no-options errors, then the fuzzy-match
fold; the best option is taken only at score ≥ 0.6, otherwise the step
fails fatally listing up to 5 option texts. -/
def executeSelect (stepTarget stepValue : Option String)
    (entities : List (String × String)) (elementFound : Bool)
    (opts : List SelectOption) : SelectOutcome :=
  if stepTarget.getD "" = "" then
    ⟨{ success := false, error := some "No selector specified" }, none⟩
  else
    let value := resolveStepValue stepValue entities
    if value = "" then
      ⟨{ success := false, error := some "No value provided for selection",
         fatal := true }, none⟩
    else if !elementFound then
      ⟨{ success := false, error := some ("Element not found: " ++ stepTarget.getD ""),
         fatal := true }, none⟩
    else
      let vopts := validOptions opts
      if vopts.isEmpty then
        ⟨{ success := false, error := some "No options available in dropdown",
           fatal := true }, none⟩
      else
        let best := bestOption value vopts
        match best.1 with
        | some bm =>
          if Score.leb ⟨3, 5⟩ best.2 then ⟨{ success := true }, some bm.value⟩
          else ⟨{ success := false, error := some (availableMsg value vopts),
                  fatal := true }, none⟩
        | none =>
          ⟨{ success := false, error := some (availableMsg value vopts),
             fatal := true }, none⟩

/-! ## Submit executor and `waitForEither` -/

/-- A selector string is "declared" when it is present and non-empty —
the truthiness test `if (successSelector)` of the source. -/
def declaredSel (s : Option String) : Bool := s.getD "" != ""

/-- Result of `waitForEither`. -/
inductive WaitOutcome where
  | success
  | error (text : String)
  | timeout
deriving DecidableEq, Repr

/-- Does the success selector hit at poll `t`? -/
def hitSuccess (successSel : Option String) (presentAt : Nat → String → Bool)
    (t : Nat) : Bool :=
  declaredSel successSel && presentAt t (successSel.getD "")

/-- Does the error selector hit at poll `t`? -/
def hitError (errorSel : Option String) (presentAt : Nat → String → Bool)
    (t : Nat) : Bool :=
  declaredSel errorSel && presentAt t (errorSel.getD "")

/-- Polling loop of `waitForEither` (src lines 680–702): at each poll the
success selector is queried first, then the error selector; `presentAt t sel`
tells whether `sel` matches the document at poll `t`, and `textAt t` is the
text content of the error element at that poll. -/
def waitForEitherGo (successSel errorSel : Option String)
    (presentAt : Nat → String → Bool) (textAt : Nat → String) :
    Nat → Nat → WaitOutcome
  | 0, _ => .timeout
  | fuel + 1, t =>
    if hitSuccess successSel presentAt t then .success
    else if hitError errorSel presentAt t then .error (textAt t)
    else waitForEitherGo successSel errorSel presentAt textAt fuel (t + 1)

/-- `waitForEither(successSelector, errorSelector, 10000)`: with the 100 ms
poll interval the 10 s window holds 100 polls. -/
def waitForEither (successSel errorSel : Option String)
    (presentAt : Nat → String → Bool) (textAt : Nat → String) : WaitOutcome :=
  waitForEitherGo successSel errorSel presentAt textAt 100 0

/-- `executeSubmit` (src lines 570–611): after the click, if either selector
is declared the engine polls for whichever appears first; an error element
is a fatal failure carrying its trimmed text (`'Unknown error'` when blank),
a timeout is a non-fatal `'Submission timed out'` failure, and a success
element — or no declared selectors — yields success. -/
def executeSubmit (stepTarget waitFor errorSelector : Option String)
    (elementFound : Bool) (presentAt : Nat → String → Bool)
    (textAt : Nat → String) : StepResult :=
  if stepTarget.getD "" = "" then
    { success := false, error := some "No submit selector specified" }
  else if !elementFound then
    { success := false, error := some ("Submit button not found: " ++ stepTarget.getD "") }
  else if declaredSel waitFor || declaredSel errorSelector then
    match waitForEither waitFor errorSelector presentAt textAt with
    | .error txt =>
      { success := false,
        error := some ("Form error: " ++ jsOrS (strTrim txt) "Unknown error"),
        fatal := true }
    | .timeout => { success := false, error := some "Submission timed out" }
    | .success => { success := true }
  else { success := true }

/-! ## Element locator (`findByLabel`, `findElement`) -/

/-- A form-control element (just the attributes the locator inspects). -/
structure DomElem where
  id : String
  type : String
deriving DecidableEq, Repr

/-- A `<label>` as `findByLabel` sees it: its text content, its `for`
attribute (empty when absent), the first nested input/select/textarea, and
the first input/select/textarea under its parent element. -/
structure LabelNode where
  text : String
  htmlFor : String
  nested : Option DomElem := none
  parentField : Option DomElem := none
deriving DecidableEq, Repr

/-- The document, abstracted to what the locator queries. -/
structure Dom where
  labels : List LabelNode
  byId : String → Option DomElem
  queryCss : String → Option DomElem

/-- The type filter `!inputType || input.type === inputType`. -/
def typeOk (inputType : Option String) (e : DomElem) : Bool :=
  !declaredSel inputType || e.type == inputType.getD ""

/-- The `for`-attribute branch of `findByLabel`: when the label has a
non-empty `htmlFor` and the referenced element exists and passes the type
filter, that element is the answer; otherwise this branch yields nothing
and the search falls through. -/
def resolveByFor (dom : Dom) (l : LabelNode) (inputType : Option String) :
    Option DomElem :=
  if l.htmlFor != "" then
    match dom.byId l.htmlFor with
    | some e => if typeOk inputType e then some e else none
    | none => none
  else none

/-- Resolution for one text-matching label, in the source's priority order:
the `for`-referenced element, then a nested control (no type filter in the
source), then a control under the label's parent (type-filtered). -/
def resolveLabel (dom : Dom) (l : LabelNode) (inputType : Option String) :
    Option DomElem :=
  match resolveByFor dom l inputType with
  | some e => some e
  | none =>
    match l.nested with
    | some e => some e
    | none =>
      match l.parentField with
      | some e => if typeOk inputType e then some e else none
      | none => none

/-- The label loop of `findByLabel` (src lines 616–645): scan all labels,
and for each whose lowercased text contains the lowercased query, try the
three resolution strategies; continue with the next label when none hits. -/
def findByLabelGo (dom : Dom) (labelText : String) (inputType : Option String) :
    List LabelNode → Option DomElem
  | [] => none
  | l :: rest =>
    if jsIncludes (jsLower l.text.data) (jsLower labelText.data) then
      match resolveLabel dom l inputType with
      | some e => some e
      | none => findByLabelGo dom labelText inputType rest
    else findByLabelGo dom labelText inputType rest

/-- `findByLabel(labelText, inputType)`. -/
def findByLabel (dom : Dom) (labelText : String) (inputType : Option String) :
    Option DomElem :=
  findByLabelGo dom labelText inputType dom.labels

/-- JS `s.split(sep)` for a one-character separator (used for
`labelPart.split('|')`): segments between occurrences of the separator. -/
def splitCharGo (sep : Char) (acc : List Char) : List Char → List (List Char)
  | [] => [acc.reverse]
  | c :: t =>
    if c = sep then acc.reverse :: splitCharGo sep [] t
    else splitCharGo sep (c :: acc) t

/-- `findElement` (src lines 650–660): a `label:` reference is split on `|`
into the label text and an optional input type and dispatched to
`findByLabel`; anything else is a plain CSS query.  `startsWith` and
`slice(6)` are taken on the character list. -/
def findElement (dom : Dom) (selector : String) : Option DomElem :=
  if "label:".data.isPrefixOf selector.data then
    let labelPart := selector.data.drop 6
    let parts := (splitCharGo '|' [] labelPart).map String.mk
    findByLabel dom (parts.headD "") parts[1]?
  else dom.queryCss selector

/-! ## Cancellation token (`src/shared/cancellationToken.ts`, whose text is
the final segment of `src/unnamed/part_003`)

`CancellationToken` holds a private `_isCancelled` flag and an optional
`_onCancel` callback; `cancel()` sets the flag once and fires the callback;
`throwIfCancelled()` throws `new CancellationError('Operation was
cancelled')` when the flag is set.  `CancellationError` extends `Error`
with a message; the engine's catches test only `instanceof
CancellationError`. -/

/-- An exception escaping a step executor or a token check:
a `CancellationError` (with its message) or any other thrown error,
rendered to the message the engine would record. -/
inductive Exn where
  | cancellation (msg : String)
  | other (msg : String)
deriving DecidableEq, Repr

/-- The `CancellationToken` state.  `hasCallback` stands for the presence
of the optional `_onCancel` callback (its code is outside the engine). -/
structure CancellationToken where
  isCancelled : Bool := false
  hasCallback : Bool := false
deriving DecidableEq, Repr

/-- `createCancellationToken()`: a fresh, uncancelled token. -/
def createCancellationToken : CancellationToken := {}

/-- `cancel()`: returns early when already cancelled, otherwise sets the
flag (the callback, when present, runs outside the engine state). -/
def CancellationToken.cancel (t : CancellationToken) : CancellationToken :=
  if t.isCancelled then t else { t with isCancelled := true }

/-- `throwIfCancelled()`: raises a `CancellationError` with message
`Operation was cancelled` exactly when the flag is set. -/
def CancellationToken.throwIfCancelled (t : CancellationToken) :
    Except Exn Unit :=
  if t.isCancelled then
    Except.error (Exn.cancellation "Operation was cancelled")
  else Except.ok ()

/-- The loop-top check of the engine (src lines 106–108):
`if (cancellationToken) { cancellationToken.throwIfCancelled(); }` — it
raises exactly when a token was passed and `throwIfCancelled` on the
token's state at that instant throws.  (The only exception
`throwIfCancelled` can raise is a `CancellationError`, which the outer
catch of `executeFromStep` handles; the rethrow branch for other error
types is unreachable from this call site.) -/
def loopCheckRaises (tokenPresent : Bool) (flag : Bool) : Bool :=
  tokenPresent &&
    match CancellationToken.throwIfCancelled { isCancelled := flag } with
    | Except.error _ => true
    | Except.ok _ => false

/-! ## Execution engine (`executeFromStep` and the hand-off protocol) -/

/-- The mutable context the engine runs in: the module-level single-flight
lock `isExecuting`, the durable storage slot, the set of elements currently
carrying the ghost highlight class, and whether an active cancellation token
is registered.  `trace` and `finished` are observation-only ghost fields:
the indices of steps whose executor was invoked, resp. returned. -/
structure World where
  isExecuting : Bool
  storage : Option ExecutionState
  ghostMarked : List String
  activeToken : Bool
  trace : List Nat := []
  finished : List Nat := []
deriving DecidableEq, Repr

/-- The environment a run unfolds in: whether a cancellation token was
passed, the token's `isCancelled` flag as observed at the loop-top check
before step `i` (an external `cancel()` may set it between any two
suspension points), what the step executor for step `i` does to the page
(given the currently marked elements) — a `CancellationError` it raises is
`Exn.cancellation` with its message — and the clock value used when
persisting. -/
structure StepEnv where
  tokenPresent : Bool
  cancelledAtCheck : Nat → Bool
  runStep : Nat → List String → Except Exn StepResult × List String
  now : Nat

/-- The default error message `result.error || Step N failed` (JS `||`,
so an empty message also falls back). -/
def stepErrMsg (c : Nat) (e : Option String) : String :=
  jsOrS (e.getD "") ("Step " ++ toString (c + 1) ++ " failed")

/-- Completion block of `executeFromStep` (src lines 159–171): clear the
persisted state, drop the token, release the lock, and report success iff
the cursor reached the end with no recorded errors. -/
def finishRun (plan : ExecutionPlan) (w : World) (c : Nat)
    (errors : List String) : ExecutionResult × World :=
  let ok := c == plan.steps.length && errors.isEmpty
  ({ success := ok, completedSteps := c, totalSteps := plan.steps.length,
     message := if ok then "Completed successfully"
                else "Completed with " ++ toString errors.length ++ " error(s)",
     errors := if errors.length > 0 then some errors else none },
   { w with storage := none, activeToken := false, isExecuting := false })

/-- The per-step `catch` of a `CancellationError` (src lines 140–153):
clear the persisted state and all ghost highlights, drop the token, and
return the cancelled result — the source does NOT release `isExecuting`
on this path. -/
def cancelInner (plan : ExecutionPlan) (w : World) (c : Nat) :
    ExecutionResult × World :=
  ({ success := false, completedSteps := c, totalSteps := plan.steps.length,
     message := "Execution cancelled", cancelled := true },
   { w with storage := none, ghostMarked := [], activeToken := false })

/-- The outer `catch` of a `CancellationError` (src lines 172–185), reached
from the loop-top token check: here `isExecuting` IS reset before the
cancelled result is returned. -/
def cancelOuter (plan : ExecutionPlan) (w : World) (c : Nat) :
    ExecutionResult × World :=
  ({ success := false, completedSteps := c, totalSteps := plan.steps.length,
     message := "Execution cancelled", cancelled := true },
   { w with isExecuting := false, storage := none, ghostMarked := [],
            activeToken := false })

/-- The navigation hand-off (src lines 116–131): advance the cursor, mark
the plan executing, persist it, release the lock and return a navigating
result counting the navigation step as completed. -/
def navigationReturn (plan : ExecutionPlan) (env : StepEnv) (w : World)
    (c : Nat) : ExecutionResult × World :=
  let plan2 := { plan with currentStep := c + 1, status := PlanStatus.executing }
  ({ success := true, completedSteps := c + 1, totalSteps := plan.steps.length,
     message := "Navigating... execution will continue on new page",
     navigating := true },
   { w with storage := some ⟨plan2, env.now, env.now⟩, activeToken := false,
            isExecuting := false })

/-- The `while (currentStep < plan.steps.length)` loop of `executeFromStep`
(src lines 104–157), with explicit fuel (each iteration either exits or
advances the cursor, so `steps.length - currentStep + 1` fuel is enough).
Per iteration: loop-top cancellation check (outer catch on throw), then the
step executor runs; a thrown `CancellationError` hits the per-step catch,
any other throw records the message and breaks; a `needsNavigation` result
persists and suspends; a failed result records its error and, when fatal,
breaks; otherwise the cursor advances. -/
def execLoop (plan : ExecutionPlan) (env : StepEnv) :
    Nat → World → Nat → List String → ExecutionResult × World
  | 0, w, c, errors => finishRun plan w c errors
  | fuel + 1, w, c, errors =>
    if c < plan.steps.length then
      if loopCheckRaises env.tokenPresent (env.cancelledAtCheck c) then
        cancelOuter plan w c
      else
        let w1 := { w with trace := w.trace ++ [c] }
        match env.runStep c w1.ghostMarked with
        | (Except.error (Exn.cancellation _), marked) =>
          cancelInner plan { w1 with ghostMarked := marked } c
        | (Except.error (Exn.other msg), marked) =>
          finishRun plan { w1 with ghostMarked := marked } c (errors ++ [msg])
        | (Except.ok r, marked) =>
          let w2 := { w1 with ghostMarked := marked,
                              finished := w1.finished ++ [c] }
          if r.needsNavigation then
            navigationReturn plan env w2 c
          else
            let errors2 :=
              if r.success then errors
              else errors ++ [stepErrMsg c r.error]
            if !r.success && r.fatal then finishRun plan w2 c errors2
            else execLoop plan env fuel w2 (c + 1) errors2
    else finishRun plan w c errors

/-- The already-in-progress rejection result (src line 91). -/
def inProgressResult (plan : ExecutionPlan) : ExecutionResult :=
  { success := false, completedSteps := 0, totalSteps := plan.steps.length,
    message := "Execution already in progress" }

/-- `executeFromStep` (src lines 82–188): reject when the single-flight
lock is held, otherwise take the lock, register the token when one was
passed, and run the loop from `plan.currentStep`. -/
def executeFromStep (plan : ExecutionPlan) (env : StepEnv) (w : World) :
    ExecutionResult × World :=
  if w.isExecuting then
    (inProgressResult plan, w)
  else
    let w1 := { w with isExecuting := true }
    let w2 := if env.tokenPresent then { w1 with activeToken := true } else w1
    execLoop plan env (plan.steps.length - plan.currentStep + 1) w2
      plan.currentStep []

/-- `checkPendingExecution` (src lines 51–60) as a function of the durable
slot: returns the state to resume (if any) together with the new contents
of the slot.  A state whose plan is `executing` is returned and the slot is
cleared immediately; anything else leaves the slot untouched and returns
nothing. -/
def checkPendingExecution (storage : Option ExecutionState) :
    Option ExecutionState × Option ExecutionState :=
  match storage with
  | some state =>
    if state.plan.status = PlanStatus.executing then (some state, none)
    else (none, some state)
  | none => (none, none)

/-- `resumeExecution` (src lines 65–77): with no manifest the slot is
cleared and a failure is reported; otherwise execution continues via
`executeFromStep` on the persisted plan. -/
def resumeExecution (manifestLoaded : Bool) (state : ExecutionState)
    (env : StepEnv) (w : World) : ExecutionResult × World :=
  if manifestLoaded then executeFromStep state.plan env w
  else
    ({ success := false, completedSteps := 0, totalSteps := 0,
       message := "No manifest loaded" },
     { w with storage := none })

/-- `executePlan` (src lines 914–928): with no manifest a failure is
reported; otherwise the plan is marked executing, its cursor reset to 0,
and handed to `executeFromStep`. -/
def executePlan (manifestLoaded : Bool) (plan : ExecutionPlan)
    (env : StepEnv) (w : World) : ExecutionResult × World :=
  if manifestLoaded then
    executeFromStep { plan with status := PlanStatus.executing, currentStep := 0 }
      env w
  else
    ({ success := false, completedSteps := 0, totalSteps := 0,
       message := "No manifest loaded" }, w)

/-- The contiguous index sequence `c, c+1, …, c+k-1` — used to state that a
run executes exactly the steps from the persisted cursor onwards. -/
def stepRange : Nat → Nat → List Nat
  | _, 0 => []
  | c, k + 1 => c :: stepRange (c + 1) k

/-! ## Helper lemmas -/

theorem splitWsGo_ne_nil (b : Bool) (acc s : List Char) :
    splitWsGo b acc s ≠ [] := by
  induction s generalizing b acc with
  | nil => simp [splitWsGo]
  | cons c t ih =>
    simp only [splitWsGo]
    split
    · split
      · exact ih _ _
      · simp
    · exact ih _ _

theorem jsSplitWs_length_pos (s : List Char) : 0 < (jsSplitWs s).length := by
  have h := splitWsGo_ne_nil false [] s
  unfold jsSplitWs
  exact List.length_pos.mpr h

theorem Score.ltb_iff {a b : Score} (ha : 0 < a.den) (hb : 0 < b.den) :
    Score.ltb a b = true ↔ a.toRat < b.toRat := by
  unfold Score.ltb Score.toRat
  rw [div_lt_div_iff₀ (by exact_mod_cast ha) (by exact_mod_cast hb)]
  rw [decide_eq_true_iff]
  constructor
  · intro h; exact_mod_cast h
  · intro h; exact_mod_cast h

theorem Score.leb_iff {a b : Score} (ha : 0 < a.den) (hb : 0 < b.den) :
    Score.leb a b = true ↔ a.toRat ≤ b.toRat := by
  unfold Score.leb
  rw [Bool.not_eq_true']
  rw [← Bool.not_eq_true (Score.ltb b a)]
  constructor
  · intro h
    have := (not_congr (Score.ltb_iff hb ha)).mp h
    exact le_of_not_lt this
  · intro h
    exact (not_congr (Score.ltb_iff hb ha)).mpr (not_lt_of_le h)

theorem stringSimilarity_den_pos (a b : String) :
    0 < (stringSimilarity a b).den := by
  have h := jsSplitWs_length_pos (simNorm a)
  simp only [stringSimilarity]
  split
  · simp
  · split
    · simp
    · simp only
      omega

theorem maxScore_den_pos {a b : Score} (ha : 0 < a.den) (hb : 0 < b.den) :
    0 < (maxScore a b).den := by
  unfold maxScore
  split <;> assumption

theorem optionScore_den_pos (value : String) (o : SelectOption) :
    0 < (optionScore value o).den :=
  maxScore_den_pos (stringSimilarity_den_pos _ _) (stringSimilarity_den_pos _ _)

theorem bestStep_den_pos (value : String) (acc : Option SelectOption × Score)
    (o : SelectOption) (h : 0 < acc.2.den) : 0 < (bestStep value acc o).2.den := by
  unfold bestStep
  simp only
  split
  · exact optionScore_den_pos value o
  · exact h

theorem foldl_bestStep_den_pos (value : String) (opts : List SelectOption) :
    ∀ acc : Option SelectOption × Score, 0 < acc.2.den →
      0 < (opts.foldl (bestStep value) acc).2.den := by
  induction opts with
  | nil => intro acc h; simpa using h
  | cons o t ih =>
    intro acc h
    simp only [List.foldl]
    exact ih _ (bestStep_den_pos value acc o h)

theorem bestOption_den_pos (value : String) (opts : List SelectOption) :
    0 < (bestOption value opts).2.den :=
  foldl_bestStep_den_pos value opts (none, ⟨0, 1⟩) (by simp)

theorem foldl_bestStep_ge (value : String) (opts : List SelectOption) :
    ∀ acc : Option SelectOption × Score, 0 < acc.2.den →
      acc.2.toRat ≤ (opts.foldl (bestStep value) acc).2.toRat
      ∧ ∀ o ∈ opts,
          (optionScore value o).toRat ≤ (opts.foldl (bestStep value) acc).2.toRat := by
  induction opts with
  | nil =>
    intro acc h
    refine ⟨le_refl _, ?_⟩
    intro o ho
    simp at ho
  | cons o t ih =>
    intro acc h
    have hstep : 0 < (bestStep value acc o).2.den := bestStep_den_pos value acc o h
    have hscore : 0 < (optionScore value o).den := optionScore_den_pos value o
    have hacc : acc.2.toRat ≤ (bestStep value acc o).2.toRat := by
      unfold bestStep
      simp only
      split
      · rename_i hlt
        exact le_of_lt ((Score.ltb_iff h hscore).mp hlt)
      · exact le_refl _
    have hsc : (optionScore value o).toRat ≤ (bestStep value acc o).2.toRat := by
      unfold bestStep
      simp only
      split
      · exact le_refl _
      · rename_i hlt
        have := (not_congr (Score.ltb_iff h hscore)).mp (by simpa using hlt)
        exact le_of_not_lt this
    obtain ⟨h1, h2⟩ := ih (bestStep value acc o) hstep
    refine ⟨le_trans hacc h1, ?_⟩
    intro o' ho'
    rcases List.mem_cons.mp ho' with rfl | hmem
    · exact le_trans hsc h1
    · exact h2 o' hmem

theorem bestOption_is_max (value : String) (opts : List SelectOption) :
    ∀ o ∈ opts, (optionScore value o).toRat ≤ (bestOption value opts).2.toRat :=
  (foldl_bestStep_ge value opts (none, ⟨0, 1⟩) (by simp)).2

/-! ### Engine loop invariants -/

theorem executeFromStep_locked (plan : ExecutionPlan) (env : StepEnv)
    (w : World) (h : w.isExecuting = true) :
    executeFromStep plan env w = (inProgressResult plan, w) := by
  simp [executeFromStep, h]

theorem throwIfCancelled_raises_iff (t : CancellationToken) :
    t.throwIfCancelled
        = Except.error (Exn.cancellation "Operation was cancelled")
      ↔ t.isCancelled = true := by
  unfold CancellationToken.throwIfCancelled
  cases h : t.isCancelled <;> simp

theorem loopCheckRaises_eq (tp flag : Bool) :
    loopCheckRaises tp flag = (tp && flag) := by
  cases flag <;> simp [loopCheckRaises, CancellationToken.throwIfCancelled]

theorem execLoop_trace (plan : ExecutionPlan) (env : StepEnv) :
    ∀ (fuel : Nat) (w : World) (c : Nat) (errors : List String),
      ∃ k, (execLoop plan env fuel w c errors).2.trace = w.trace ++ stepRange c k := by
  intro fuel
  induction fuel with
  | zero =>
    intro w c errors
    exact ⟨0, by simp [execLoop, finishRun, stepRange]⟩
  | succ n ih =>
    intro w c errors
    by_cases hc : c < plan.steps.length
    · by_cases hcc : (env.tokenPresent && env.cancelledAtCheck c) = true
      · exact ⟨0, by simp [execLoop, loopCheckRaises_eq, hc, hcc, cancelOuter, stepRange]⟩
      · rcases hrun : env.runStep c w.ghostMarked with ⟨x, marked⟩
        cases x with
        | error e =>
          cases e with
          | cancellation msg =>
            exact ⟨1, by simp [execLoop, loopCheckRaises_eq, hc, hcc, hrun, cancelInner, stepRange]⟩
          | other msg =>
            exact ⟨1, by simp [execLoop, loopCheckRaises_eq, hc, hcc, hrun, finishRun, stepRange]⟩
        | ok r =>
          by_cases hnav : r.needsNavigation = true
          · exact ⟨1, by simp [execLoop, loopCheckRaises_eq, hc, hcc, hrun, hnav, navigationReturn, stepRange]⟩
          · by_cases hfat : (!r.success && r.fatal) = true
            · exact ⟨1, by simp [execLoop, loopCheckRaises_eq, hc, hcc, hrun, hnav, hfat, finishRun, stepRange]⟩
            · obtain ⟨k, hk⟩ := ih
                { w with trace := w.trace ++ [c], ghostMarked := marked,
                         finished := w.finished ++ [c] }
                (c + 1)
                (if r.success then errors else errors ++ [stepErrMsg c r.error])
              refine ⟨k + 1, ?_⟩
              simp only [execLoop, loopCheckRaises_eq, hc, hcc, hrun, hnav, hfat]
              simp only [if_pos hc, Bool.false_eq_true, if_false]
              rw [show stepRange c (k + 1) = c :: stepRange (c + 1) k from rfl]
              simp only at hk
              by_cases hs : r.success = true
              · simp only [hs, if_true] at hk ⊢
                simp [hk]
              · simp only [Bool.not_eq_true] at hs
                simp only [hs, Bool.false_eq_true, if_false] at hk ⊢
                simp [hk]
    · exact ⟨0, by simp [execLoop, hc, finishRun, stepRange]⟩

theorem execLoop_cancelled (plan : ExecutionPlan) (env : StepEnv) :
    ∀ (fuel : Nat) (w : World) (c : Nat) (errors : List String),
      (execLoop plan env fuel w c errors).1.cancelled = true →
      (execLoop plan env fuel w c errors).1.success = false
      ∧ (execLoop plan env fuel w c errors).1.message = "Execution cancelled"
      ∧ (execLoop plan env fuel w c errors).1.totalSteps = plan.steps.length
      ∧ (execLoop plan env fuel w c errors).2.storage = none
      ∧ (execLoop plan env fuel w c errors).2.ghostMarked = []
      ∧ (execLoop plan env fuel w c errors).2.finished.length + c
          = w.finished.length + (execLoop plan env fuel w c errors).1.completedSteps := by
  intro fuel
  induction fuel with
  | zero =>
    intro w c errors hcan
    simp [execLoop, finishRun] at hcan
  | succ n ih =>
    intro w c errors hcan
    by_cases hc : c < plan.steps.length
    · by_cases hcc : (env.tokenPresent && env.cancelledAtCheck c) = true
      · simp [execLoop, loopCheckRaises_eq, hc, hcc, cancelOuter]
      · rcases hrun : env.runStep c w.ghostMarked with ⟨x, marked⟩
        cases x with
        | error e =>
          cases e with
          | cancellation msg =>
            simp [execLoop, loopCheckRaises_eq, hc, hcc, hrun, cancelInner]
          | other msg =>
            simp [execLoop, loopCheckRaises_eq, hc, hcc, hrun, finishRun] at hcan
        | ok r =>
          by_cases hnav : r.needsNavigation = true
          · simp [execLoop, loopCheckRaises_eq, hc, hcc, hrun, hnav, navigationReturn] at hcan
          · by_cases hfat : (!r.success && r.fatal) = true
            · simp [execLoop, loopCheckRaises_eq, hc, hcc, hrun, hnav, hfat, finishRun] at hcan
            · simp only [execLoop, loopCheckRaises_eq, hc, if_true, hcc, Bool.false_eq_true, if_false,
                hrun, hnav, hfat] at hcan ⊢
              obtain ⟨h1, h2, h3, h4, h5, h6⟩ := ih _ _ _ hcan
              refine ⟨h1, h2, h3, h4, h5, ?_⟩
              simp only [List.length_append, List.length_cons, List.length_nil] at h6 ⊢
              omega
    · simp [execLoop, hc, finishRun] at hcan

theorem execLoop_cancel_keeps_lock (plan : ExecutionPlan) (env : StepEnv)
    (hchk : ∀ i, (env.tokenPresent && env.cancelledAtCheck i) = false) :
    ∀ (fuel : Nat) (w : World) (c : Nat) (errors : List String),
      w.isExecuting = true →
      (execLoop plan env fuel w c errors).1.cancelled = true →
      (execLoop plan env fuel w c errors).2.isExecuting = true := by
  intro fuel
  induction fuel with
  | zero =>
    intro w c errors hw hcan
    simp [execLoop, finishRun] at hcan
  | succ n ih =>
    intro w c errors hw hcan
    by_cases hc : c < plan.steps.length
    · rcases hrun : env.runStep c w.ghostMarked with ⟨x, marked⟩
      cases x with
      | error e =>
        cases e with
        | cancellation msg =>
          simp [execLoop, loopCheckRaises_eq, hc, hchk c, hrun, cancelInner, hw]
        | other msg =>
          simp [execLoop, loopCheckRaises_eq, hc, hchk c, hrun, finishRun] at hcan
      | ok r =>
        by_cases hnav : r.needsNavigation = true
        · simp [execLoop, loopCheckRaises_eq, hc, hchk c, hrun, hnav, navigationReturn] at hcan
        · by_cases hfat : (!r.success && r.fatal) = true
          · simp [execLoop, loopCheckRaises_eq, hc, hchk c, hrun, hnav, hfat, finishRun] at hcan
          · simp only [execLoop, loopCheckRaises_eq, if_pos hc, hchk c, Bool.false_eq_true, if_false,
              hrun, hnav, hfat] at hcan ⊢
            exact ih _ _ _ hw hcan
    · simp [execLoop, hc, finishRun] at hcan

theorem execLoop_all_ok (plan : ExecutionPlan) (env : StepEnv)
    (hchk : ∀ i, (env.tokenPresent && env.cancelledAtCheck i) = false)
    (hrun : ∀ i m, ∃ r m', env.runStep i m = (Except.ok r, m')
            ∧ r.success = true ∧ r.needsNavigation = false) :
    ∀ (fuel c : Nat), plan.steps.length - c < fuel → c ≤ plan.steps.length →
      ∀ w : World,
      (execLoop plan env fuel w c []).1.success = true
      ∧ (execLoop plan env fuel w c []).1.completedSteps = plan.steps.length
      ∧ (execLoop plan env fuel w c []).1.totalSteps = plan.steps.length
      ∧ (execLoop plan env fuel w c []).2.storage = none := by
  intro fuel
  induction fuel with
  | zero =>
    intro c hfuel
    omega
  | succ n ih =>
    intro c hfuel hle w
    by_cases hc : c < plan.steps.length
    · obtain ⟨r, m', heq, hs, hn⟩ := hrun c w.ghostMarked
      simp only [execLoop, loopCheckRaises_eq, if_pos hc, hchk c, Bool.false_eq_true, if_false,
        heq, hn, hs, Bool.not_true, Bool.false_and, if_true]
      exact ih (c + 1) (by omega) (by omega) _
    · have hceq : c = plan.steps.length := by omega
      subst hceq
      simp [execLoop, hc, finishRun]

theorem executeFromStep_trace (plan : ExecutionPlan) (env : StepEnv) (w : World) :
    ∃ k, (executeFromStep plan env w).2.trace
          = w.trace ++ stepRange plan.currentStep k := by
  by_cases hlock : w.isExecuting = true
  · exact ⟨0, by simp [executeFromStep, hlock, stepRange]⟩
  · by_cases ht : env.tokenPresent = true
    · obtain ⟨k, hk⟩ := execLoop_trace plan env (plan.steps.length - plan.currentStep + 1)
        { w with isExecuting := true, activeToken := true } plan.currentStep []
      refine ⟨k, ?_⟩
      simp only [executeFromStep, hlock, Bool.false_eq_true, if_false, ht, if_true]
      simpa using hk
    · obtain ⟨k, hk⟩ := execLoop_trace plan env (plan.steps.length - plan.currentStep + 1)
        { w with isExecuting := true } plan.currentStep []
      refine ⟨k, ?_⟩
      simp only [executeFromStep, hlock, Bool.false_eq_true, if_false, ht]
      simpa using hk

theorem executeFromStep_cancelled (plan : ExecutionPlan) (env : StepEnv) (w : World)
    (hres : (executeFromStep plan env w).1.cancelled = true) :
    (executeFromStep plan env w).1.success = false
    ∧ (executeFromStep plan env w).1.message = "Execution cancelled"
    ∧ (executeFromStep plan env w).1.totalSteps = plan.steps.length
    ∧ (executeFromStep plan env w).2.storage = none
    ∧ (executeFromStep plan env w).2.ghostMarked = []
    ∧ (executeFromStep plan env w).2.finished.length + plan.currentStep
        = w.finished.length + (executeFromStep plan env w).1.completedSteps := by
  by_cases hlock : w.isExecuting = true
  · rw [executeFromStep_locked plan env w hlock] at hres
    simp [inProgressResult] at hres
  · by_cases ht : env.tokenPresent = true
    · simp only [executeFromStep, hlock, Bool.false_eq_true, if_false, ht, if_true] at hres ⊢
      have h := execLoop_cancelled plan env (plan.steps.length - plan.currentStep + 1)
        { w with isExecuting := true, activeToken := true } plan.currentStep [] (by simpa using hres)
      simpa using h
    · simp only [executeFromStep, hlock, Bool.false_eq_true, if_false, ht] at hres ⊢
      have h := execLoop_cancelled plan env (plan.steps.length - plan.currentStep + 1)
        { w with isExecuting := true } plan.currentStep [] (by simpa using hres)
      simpa using h

theorem executeFromStep_cancel_keeps_lock (plan : ExecutionPlan) (env : StepEnv)
    (w : World)
    (hchk : ∀ i, (env.tokenPresent && env.cancelledAtCheck i) = false)
    (hres : (executeFromStep plan env w).1.cancelled = true) :
    (executeFromStep plan env w).2.isExecuting = true := by
  by_cases hlock : w.isExecuting = true
  · rw [executeFromStep_locked plan env w hlock] at hres
    simp [inProgressResult] at hres
  · by_cases ht : env.tokenPresent = true
    · simp only [executeFromStep, hlock, Bool.false_eq_true, if_false, ht, if_true] at hres ⊢
      exact execLoop_cancel_keeps_lock plan env hchk _ _ _ _ rfl (by simpa using hres)
    · simp only [executeFromStep, hlock, Bool.false_eq_true, if_false, ht] at hres ⊢
      exact execLoop_cancel_keeps_lock plan env hchk _ _ _ _ rfl (by simpa using hres)

theorem executeFromStep_all_ok (plan : ExecutionPlan) (env : StepEnv) (w : World)
    (hlock : w.isExecuting = false)
    (hchk : ∀ i, (env.tokenPresent && env.cancelledAtCheck i) = false)
    (hrun : ∀ i m, ∃ r m', env.runStep i m = (Except.ok r, m')
            ∧ r.success = true ∧ r.needsNavigation = false)
    (hcur : plan.currentStep ≤ plan.steps.length) :
    (executeFromStep plan env w).1.success = true
    ∧ (executeFromStep plan env w).1.completedSteps = plan.steps.length
    ∧ (executeFromStep plan env w).1.totalSteps = plan.steps.length
    ∧ (executeFromStep plan env w).2.storage = none := by
  have hfuel : plan.steps.length - plan.currentStep
      < plan.steps.length - plan.currentStep + 1 := by omega
  by_cases ht : env.tokenPresent = true
  · simp only [executeFromStep, hlock, Bool.false_eq_true, if_false, ht, if_true]
    exact execLoop_all_ok plan env hchk hrun _ _ hfuel hcur _
  · simp only [executeFromStep, hlock, Bool.false_eq_true, if_false, ht]
    exact execLoop_all_ok plan env hchk hrun _ _ hfuel hcur _

theorem waitForEitherGo_timeout (sSel eSel : Option String)
    (presentAt : Nat → String → Bool) (textAt : Nat → String) :
    ∀ (fuel t0 : Nat),
      (∀ u, t0 ≤ u → u < t0 + fuel →
        hitSuccess sSel presentAt u = false ∧ hitError eSel presentAt u = false) →
      waitForEitherGo sSel eSel presentAt textAt fuel t0 = WaitOutcome.timeout := by
  intro fuel
  induction fuel with
  | zero => intro t0 h; rfl
  | succ n ih =>
    intro t0 h
    have h0 := h t0 (le_refl _) (by omega)
    simp only [waitForEitherGo, hitSuccess, hitError] at h0 ⊢
    simp only [h0.1, h0.2, Bool.false_eq_true, if_false]
    exact ih (t0 + 1) fun u hu1 hu2 => h u (by omega) (by omega)

theorem waitForEitherGo_success (sSel eSel : Option String)
    (presentAt : Nat → String → Bool) (textAt : Nat → String) :
    ∀ (fuel t0 t : Nat), t0 ≤ t → t < t0 + fuel →
      hitSuccess sSel presentAt t = true →
      (∀ u, t0 ≤ u → u < t → hitError eSel presentAt u = false) →
      waitForEitherGo sSel eSel presentAt textAt fuel t0 = WaitOutcome.success := by
  intro fuel
  induction fuel with
  | zero => intro t0 t h1 h2; omega
  | succ n ih =>
    intro t0 t h1 h2 hs he
    by_cases h0 : hitSuccess sSel presentAt t0 = true
    · simp [waitForEitherGo, h0]
    · have hne : t0 ≠ t := fun hteq => h0 (hteq ▸ hs)
      have he0 : hitError eSel presentAt t0 = false := he t0 (le_refl _) (by omega)
      simp only [waitForEitherGo, h0, Bool.false_eq_true, if_false, he0]
      exact ih (t0 + 1) t (by omega) (by omega) hs
        fun u hu1 hu2 => he u (by omega) hu2

theorem waitForEitherGo_error (sSel eSel : Option String)
    (presentAt : Nat → String → Bool) (textAt : Nat → String) :
    ∀ (fuel t0 t : Nat), t0 ≤ t → t < t0 + fuel →
      hitError eSel presentAt t = true →
      (∀ u, t0 ≤ u → u ≤ t → hitSuccess sSel presentAt u = false) →
      (∀ u, t0 ≤ u → u < t → hitError eSel presentAt u = false) →
      waitForEitherGo sSel eSel presentAt textAt fuel t0
        = WaitOutcome.error (textAt t) := by
  intro fuel
  induction fuel with
  | zero => intro t0 t h1 h2; omega
  | succ n ih =>
    intro t0 t h1 h2 herr hs he
    have hs0 : hitSuccess sSel presentAt t0 = false := hs t0 (le_refl _) h1
    by_cases hteq : t0 = t
    · subst hteq
      simp [waitForEitherGo, hs0, herr]
    · have he0 : hitError eSel presentAt t0 = false := he t0 (le_refl _) (by omega)
      simp only [waitForEitherGo, hs0, Bool.false_eq_true, if_false, he0]
      exact ih (t0 + 1) t (by omega) (by omega) herr
        (fun u hu1 hu2 => hs u (by omega) hu2)
        fun u hu1 hu2 => he u (by omega) hu2

theorem Score.toRat_nonneg (s : Score) : 0 ≤ s.toRat :=
  div_nonneg (Nat.cast_nonneg _) (Nat.cast_nonneg _)

theorem Score.toRat_le_one {s : Score} (h : s.num ≤ s.den) (hd : 0 < s.den) :
    s.toRat ≤ 1 := by
  unfold Score.toRat
  rw [div_le_one (by exact_mod_cast hd)]
  exact_mod_cast h

theorem stringSimilarity_num_le_den (a b : String) :
    (stringSimilarity a b).num ≤ (stringSimilarity a b).den := by
  simp only [stringSimilarity]
  split
  · simp
  · split
    · simp
    · simp only
      exact le_trans
        (List.length_filter_le (tokenMatched (jsSplitWs (simNorm b))) (jsSplitWs (simNorm a)))
        (le_max_left _ _)

theorem maxScore_toRat {a b : Score} (ha : 0 < a.den) (hb : 0 < b.den) :
    (maxScore a b).toRat = max a.toRat b.toRat := by
  unfold maxScore
  split
  · rename_i h
    exact (max_eq_right (le_of_lt ((Score.ltb_iff ha hb).mp h))).symm
  · rename_i h
    have hnl := (not_congr (Score.ltb_iff ha hb)).mp (by simpa using h)
    exact (max_eq_left (le_of_not_lt hnl)).symm

theorem score_threshold_toRat : (⟨3, 5⟩ : Score).toRat = 3 / 5 := by
  norm_num [Score.toRat]

theorem resolveStepValue_literal (v : String) (hv : v ≠ "") :
    resolveStepValue (some v) [] = v := by
  simp [resolveStepValue, lookupEntity, jsOrS, hv]

/-! ## Concrete sample data for the closed instances below -/

/-- A side-effect-free step. -/
def sampleStep : ExecutionStep := { type := StepType.notify }

/-- A two-step plan, marked executing (as a persisted plan would be). -/
def samplePlan : ExecutionPlan :=
  { id := "plan_1", intent := "demo", confidence := 1, entities := [],
    steps := [sampleStep, sampleStep], confirmMessage := "",
    currentStep := 0, status := PlanStatus.executing }

/-- An idle world: lock free, empty slot, no markers, no token. -/
def sampleWorld : World :=
  { isExecuting := false, storage := none, ghostMarked := [], activeToken := false }

/-- An environment in which every step executor succeeds immediately. -/
def envAllOk : StepEnv :=
  { tokenPresent := false, cancelledAtCheck := fun _ => false,
    runStep := fun _ m => (Except.ok { success := true }, m), now := 0 }

/-- An environment whose step executor raises a `CancellationError`
(cancellation observed inside the step, not at the loop-top check). -/
def envCancelInStep : StepEnv :=
  { tokenPresent := true, cancelledAtCheck := fun _ => false,
    runStep := fun _ m => (Except.error (Exn.cancellation "Operation was cancelled"), m),
    now := 0 }

/-- A persisted execution state wrapping `samplePlan`. -/
def sampleState : ExecutionState :=
  { plan := samplePlan, startedAt := 3, lastUpdated := 4 }

/-- A plan with an empty step sequence. -/
def samplePlanEmpty : ExecutionPlan :=
  { id := "plan_0", intent := "demo", confidence := 1, entities := [],
    steps := [], confirmMessage := "", currentStep := 0,
    status := PlanStatus.confirmed }

/-! ## Claim theorems -/

/-- C1: a persisted execution state whose plan status is `executing` is
removed from the durable slot by `checkPendingExecution` in the same step
that returns it, so a second read of the slot finds nothing; and resuming
the returned state executes the steps starting from exactly the persisted
`plan.currentStep` — the indices of the step executors invoked by the
resumed run form the contiguous sequence `currentStep, currentStep+1, …`. -/
theorem pending_state_resumed_once (s : ExecutionState)
    (hst : s.plan.status = PlanStatus.executing) :
    checkPendingExecution (some s) = (some s, none)
    ∧ checkPendingExecution (checkPendingExecution (some s)).2 = (none, none)
    ∧ ∀ (env : StepEnv) (w : World), w.trace = [] →
        ∃ k, (resumeExecution true s env w).2.trace
              = stepRange s.plan.currentStep k := by
  refine ⟨by simp [checkPendingExecution, hst],
          by simp [checkPendingExecution, hst], ?_⟩
  intro env w htr
  have h := executeFromStep_trace s.plan env w
  rw [htr] at h
  simpa [resumeExecution] using h

/-- Witness for C1 at a concrete persisted state and environment. -/
theorem pending_state_resumed_once_witness :
    checkPendingExecution (some sampleState) = (some sampleState, none)
    ∧ ∃ k, (resumeExecution true sampleState envAllOk sampleWorld).2.trace
            = stepRange sampleState.plan.currentStep k :=
  ⟨(pending_state_resumed_once sampleState rfl).1,
   (pending_state_resumed_once sampleState rfl).2.2 envAllOk sampleWorld rfl⟩

/-- C2: while the single-flight lock is held, a concurrent start returns
the failure result with message `Execution already in progress` and leaves
the whole execution context — lock, durable slot, markers, token — exactly
as it was (the returned world is the input world). -/
theorem concurrent_start_rejected (plan : ExecutionPlan) (env : StepEnv)
    (w : World) (h : w.isExecuting = true) :
    executeFromStep plan env w
      = ({ success := false, completedSteps := 0, totalSteps := plan.steps.length,
           message := "Execution already in progress" }, w) :=
  executeFromStep_locked plan env w h

/-- Witness for C2: a concrete busy world. -/
theorem concurrent_start_rejected_witness :
    executeFromStep samplePlan envAllOk { sampleWorld with isExecuting := true }
      = ({ success := false, completedSteps := 0, totalSteps := 2,
           message := "Execution already in progress" },
         { sampleWorld with isExecuting := true }) :=
  concurrent_start_rejected samplePlan envAllOk
    { sampleWorld with isExecuting := true } rfl

/-- C3 (code bug): the engine has no empty-plan guard.  Executing a plan
with `steps = []` (manifest loaded, lock free, a state pending in the
durable slot) runs the completion path: it reports `success = true`,
`Completed successfully`, and clears the durable slot — where the claim
requires a failure without side effects.  This closed run exhibits the
behaviour at the failing input. -/
theorem empty_plan_run_reports_success :
    executePlan true samplePlanEmpty envAllOk
        { sampleWorld with storage := some sampleState }
      = ({ success := true, completedSteps := 0, totalSteps := 0,
           message := "Completed successfully" },
         { isExecuting := false, storage := none, ghostMarked := [],
           activeToken := false }) := by decide

/-- C4: whenever cancellation surfaces during a run — at the loop-top check
or from inside a step executor — the engine clears the persisted state,
removes every ghost marker, and returns `cancelled = true`,
`success = false` with `completedSteps` equal to the persisted baseline
`plan.currentStep` plus the number of steps whose executor fully completed
in this run (the `finished` observation, empty at entry). -/
theorem cancellation_clears_state (plan : ExecutionPlan) (env : StepEnv)
    (w : World) (hfin : w.finished = []) :
    (plan.currentStep < plan.steps.length → w.isExecuting = false →
      ((env.tokenPresent && env.cancelledAtCheck plan.currentStep) = true
        ∨ ∃ msg, (env.runStep plan.currentStep w.ghostMarked).1
            = Except.error (Exn.cancellation msg)) →
      (executeFromStep plan env w).1.cancelled = true)
    ∧ ((executeFromStep plan env w).1.cancelled = true →
        (executeFromStep plan env w).1.success = false
        ∧ (executeFromStep plan env w).1.message = "Execution cancelled"
        ∧ (executeFromStep plan env w).1.totalSteps = plan.steps.length
        ∧ (executeFromStep plan env w).2.storage = none
        ∧ (executeFromStep plan env w).2.ghostMarked = []
        ∧ (executeFromStep plan env w).1.completedSteps
            = plan.currentStep + (executeFromStep plan env w).2.finished.length) := by
  constructor
  · intro hcur hlock hraise
    by_cases ht : env.tokenPresent = true
    · by_cases hcc : env.cancelledAtCheck plan.currentStep = true
      · simp [executeFromStep, hlock, ht, execLoop, loopCheckRaises_eq, hcur, hcc, cancelOuter]
      · rcases hraise with hraise | ⟨msg, hraise⟩
        · rw [ht] at hraise
          simp [hcc] at hraise
        · rcases hrs : env.runStep plan.currentStep w.ghostMarked with ⟨x, marked⟩
          rw [hrs] at hraise
          simp only at hraise
          subst hraise
          simp [executeFromStep, hlock, ht, execLoop, loopCheckRaises_eq, hcur, hcc, hrs, cancelInner]
    · rcases hraise with hraise | ⟨msg, hraise⟩
      · rw [Bool.not_eq_true] at ht
        rw [ht] at hraise
        simp at hraise
      · rcases hrs : env.runStep plan.currentStep w.ghostMarked with ⟨x, marked⟩
        rw [hrs] at hraise
        simp only at hraise
        subst hraise
        simp [executeFromStep, hlock, ht, execLoop, loopCheckRaises_eq, hcur, hrs, cancelInner]
  · intro hres
    obtain ⟨h1, h2, h3, h4, h5, h6⟩ := executeFromStep_cancelled plan env w hres
    refine ⟨h1, h2, h3, h4, h5, ?_⟩
    rw [hfin] at h6
    simp only [List.length_nil, Nat.zero_add] at h6
    omega

/-- Witness for C4: cancellation raised inside the first step executor. -/
theorem cancellation_clears_state_witness :
    (executeFromStep samplePlan envCancelInStep sampleWorld).1.cancelled = true
    ∧ (executeFromStep samplePlan envCancelInStep sampleWorld).1.success = false
    ∧ (executeFromStep samplePlan envCancelInStep sampleWorld).2.storage = none
    ∧ (executeFromStep samplePlan envCancelInStep sampleWorld).2.ghostMarked = []
    ∧ (executeFromStep samplePlan envCancelInStep sampleWorld).1.completedSteps
        = samplePlan.currentStep
          + (executeFromStep samplePlan envCancelInStep sampleWorld).2.finished.length := by
  have hthm := cancellation_clears_state samplePlan envCancelInStep sampleWorld rfl
  have hcan := hthm.1 (by decide) rfl (Or.inr ⟨"Operation was cancelled", rfl⟩)
  have h := hthm.2 hcan
  exact ⟨hcan, h.1, h.2.2.2.1, h.2.2.2.2.1, h.2.2.2.2.2⟩

/-- C5: when the `CancellationError` is raised inside a step executor (the
loop-top checks never fire), the per-step catch returns the cancelled
result without resetting the module-level `isExecuting` lock, so every
later start or resume in this execution context is rejected as already in
progress. -/
theorem step_cancellation_keeps_lock (plan : ExecutionPlan) (env : StepEnv)
    (w : World)
    (hchk : ∀ i, (env.tokenPresent && env.cancelledAtCheck i) = false)
    (hres : (executeFromStep plan env w).1.cancelled = true) :
    (executeFromStep plan env w).2.isExecuting = true
    ∧ ∀ (p2 : ExecutionPlan) (e2 : StepEnv),
        executeFromStep p2 e2 (executeFromStep plan env w).2
          = (inProgressResult p2, (executeFromStep plan env w).2) := by
  have h1 := executeFromStep_cancel_keeps_lock plan env w hchk hres
  exact ⟨h1, fun p2 e2 => executeFromStep_locked p2 e2 _ h1⟩

/-- Witness for C5: after an in-step cancellation, a fresh start attempt is
rejected. -/
theorem step_cancellation_keeps_lock_witness :
    (executeFromStep samplePlan envCancelInStep sampleWorld).2.isExecuting = true
    ∧ executeFromStep samplePlan envAllOk
        (executeFromStep samplePlan envCancelInStep sampleWorld).2
      = (inProgressResult samplePlan,
         (executeFromStep samplePlan envCancelInStep sampleWorld).2) := by
  have h := step_cancellation_keeps_lock samplePlan envCancelInStep sampleWorld
    (fun i => rfl) (by decide)
  exact ⟨h.1, h.2 samplePlan envAllOk⟩

/-- C10: a run in which every step executor succeeds (no cancellation, no
navigation) reports `success = true` with
`completedSteps = totalSteps = steps.length`, and the durable slot is
clear afterwards. -/
theorem complete_run_success (plan : ExecutionPlan) (env : StepEnv) (w : World)
    (hlock : w.isExecuting = false)
    (hchk : ∀ i, (env.tokenPresent && env.cancelledAtCheck i) = false)
    (hrun : ∀ i m, ∃ r m', env.runStep i m = (Except.ok r, m')
            ∧ r.success = true ∧ r.needsNavigation = false) :
    (executePlan true plan env w).1.success = true
    ∧ (executePlan true plan env w).1.completedSteps = plan.steps.length
    ∧ (executePlan true plan env w).1.totalSteps = plan.steps.length
    ∧ (executePlan true plan env w).2.storage = none := by
  have h := executeFromStep_all_ok
    { plan with status := PlanStatus.executing, currentStep := 0 }
    env w hlock hchk hrun (Nat.zero_le _)
  simpa [executePlan] using h

/-- Witness for C10: the two-step sample plan executed to completion. -/
theorem complete_run_success_witness :
    (executePlan true samplePlan envAllOk sampleWorld).1.success = true
    ∧ (executePlan true samplePlan envAllOk sampleWorld).1.completedSteps
        = samplePlan.steps.length
    ∧ (executePlan true samplePlan envAllOk sampleWorld).2.storage = none := by
  have h := complete_run_success samplePlan envAllOk sampleWorld rfl
    (fun i => rfl) (fun i m => ⟨{ success := true }, m, rfl, rfl, rfl⟩)
  exact ⟨h.1, h.2.1, h.2.2.2⟩

/-- C7 counterexample: a fill step whose `value` names the entity key
`studentName` while the plan's entity mapping is empty does NOT fail — the
engine falls back to the literal key text and writes it into the field. -/
theorem missing_entity_key_not_fatal :
    lookupEntity [] "studentName" = none
    ∧ executeFill (some "#student") (some "studentName") [] true
        = ⟨{ success := true }, some "studentName"⟩ := by decide

/-- C7 (amended): a fill or select step fails with the fatal missing-value
error — and writes nothing — exactly when the resolved value
(`entities[step.value] || step.value || ''`) is empty. -/
theorem empty_resolved_value_fatal (tgt : String) (sv : Option String)
    (entities : List (String × String)) (found : Bool)
    (opts : List SelectOption)
    (htgt : tgt ≠ "") (hval : resolveStepValue sv entities = "") :
    executeFill (some tgt) sv entities found
      = ⟨{ success := false,
           error := some ("No value provided for field \"" ++ sv.getD "" ++ "\""),
           fatal := true }, none⟩
    ∧ executeSelect (some tgt) sv entities found opts
      = ⟨{ success := false, error := some "No value provided for selection",
           fatal := true }, none⟩ := by
  constructor
  · simp [executeFill, htgt, hval]
  · simp [executeSelect, htgt, hval]

/-- Witness for the amended C7: a fill/select step with an empty value. -/
theorem empty_resolved_value_fatal_witness :
    executeFill (some "#f") (some "") [] true
      = ⟨{ success := false,
           error := some ("No value provided for field \"" ++ (some "").getD "" ++ "\""),
           fatal := true }, none⟩
    ∧ executeSelect (some "#f") (some "") [] true []
      = ⟨{ success := false, error := some "No value provided for selection",
           fatal := true }, none⟩ :=
  empty_resolved_value_fatal "#f" (some "") [] true [] (by decide) (by decide)

/-- C6: the similarity function returns 1 on a case-insensitive trimmed
exact match, 0.9 on substring containment either way, and otherwise the
number of reference tokens in a containment relation with some candidate
token divided by the larger token count — always a value in [0, 1]; each
valid option is scored as the maximum of the similarity against its value
and its text; the best-scoring option is selected exactly when its score
reaches 0.6, and otherwise the step fails fatally with the message listing
up to 5 option texts; finally the two concrete scenarios of the spec. -/
theorem select_scoring_and_threshold :
    (∀ a b : String, simNorm a = simNorm b → (stringSimilarity a b).toRat = 1)
    ∧ (∀ a b : String, simNorm a ≠ simNorm b →
        (jsIncludes (simNorm a) (simNorm b) || jsIncludes (simNorm b) (simNorm a)) = true →
        (stringSimilarity a b).toRat = 9 / 10)
    ∧ (∀ a b : String, simNorm a ≠ simNorm b →
        (jsIncludes (simNorm a) (simNorm b) || jsIncludes (simNorm b) (simNorm a)) = false →
        (stringSimilarity a b).toRat
          = (((jsSplitWs (simNorm a)).filter (tokenMatched (jsSplitWs (simNorm b)))).length : Rat)
            / ((max (jsSplitWs (simNorm a)).length (jsSplitWs (simNorm b)).length : Nat) : Rat))
    ∧ (∀ a b : String, 0 ≤ (stringSimilarity a b).toRat ∧ (stringSimilarity a b).toRat ≤ 1)
    ∧ (∀ (v : String) (o : SelectOption),
        (optionScore v o).toRat
          = max (stringSimilarity v o.value).toRat (stringSimilarity v o.text).toRat)
    ∧ (∀ (tgt value : String) (opts : List SelectOption) (o : SelectOption),
        tgt ≠ "" → value ≠ "" →
        (∀ o2 ∈ validOptions opts,
            (optionScore value o2).toRat ≤ (bestOption value (validOptions opts)).2.toRat)
        ∧ ((bestOption value (validOptions opts)).1 = some o →
            3 / 5 ≤ (bestOption value (validOptions opts)).2.toRat →
            executeSelect (some tgt) (some value) [] true opts
              = ⟨{ success := true }, some o.value⟩)
        ∧ (validOptions opts ≠ [] →
            (bestOption value (validOptions opts)).2.toRat < 3 / 5 →
            executeSelect (some tgt) (some value) [] true opts
              = ⟨{ success := false,
                   error := some (availableMsg value (validOptions opts)),
                   fatal := true }, none⟩))
    ∧ executeSelect (some "#grade") (some "grade a") [] true
        [⟨"Grade A", "Grade A", false⟩, ⟨"Grade B", "Grade B", false⟩,
         ⟨"Grade C", "Grade C", false⟩]
        = ⟨{ success := true }, some "Grade A"⟩
    ∧ executeSelect (some "#color") (some "xyz123") [] true
        [⟨"Red", "Red", false⟩, ⟨"Blue", "Blue", false⟩, ⟨"Green", "Green", false⟩]
        = ⟨{ success := false,
             error := some "No match for \"xyz123\". Available: Red, Blue, Green",
             fatal := true }, none⟩ := by
  refine ⟨?_, ?_, ?_, ?_, ?_, ?_, by decide, by decide⟩
  · intro a b h
    simp [stringSimilarity, h, Score.toRat]
  · intro a b hne hinc
    simp [stringSimilarity, hne, hinc, Score.toRat]
  · intro a b hne hinc
    simp [stringSimilarity, hne, hinc, Score.toRat]
  · intro a b
    exact ⟨Score.toRat_nonneg _,
           Score.toRat_le_one (stringSimilarity_num_le_den a b)
             (stringSimilarity_den_pos a b)⟩
  · intro v o
    exact maxScore_toRat (stringSimilarity_den_pos _ _) (stringSimilarity_den_pos _ _)
  · intro tgt value opts o htgt hv
    refine ⟨bestOption_is_max value (validOptions opts), ?_, ?_⟩
    · intro hbm hge
      have hne : validOptions opts ≠ [] := by
        intro h0
        rw [h0] at hbm
        simp [bestOption] at hbm
      have hemp : (validOptions opts).isEmpty = false := by
        cases h2 : validOptions opts with
        | nil => exact absurd h2 hne
        | cons x xs => rfl
      have hleb : Score.leb ⟨3, 5⟩ (bestOption value (validOptions opts)).2 = true := by
        rw [Score.leb_iff (by decide) (bestOption_den_pos value (validOptions opts)),
          score_threshold_toRat]
        exact hge
      simp [executeSelect, htgt, hv, resolveStepValue_literal value hv, hemp, hbm, hleb]
    · intro hne hlt
      have hemp : (validOptions opts).isEmpty = false := by
        cases h2 : validOptions opts with
        | nil => exact absurd h2 hne
        | cons x xs => rfl
      have hleb : Score.leb ⟨3, 5⟩ (bestOption value (validOptions opts)).2 = false := by
        rw [Bool.eq_false_iff]
        intro hl
        rw [Score.leb_iff (by decide) (bestOption_den_pos value (validOptions opts)),
          score_threshold_toRat] at hl
        exact absurd hl (not_le_of_lt hlt)
      rcases hbm : (bestOption value (validOptions opts)).1 with _ | o2
      · simp [executeSelect, htgt, hv, resolveStepValue_literal value hv, hemp, hbm, hleb]
      · simp [executeSelect, htgt, hv, resolveStepValue_literal value hv, hemp, hbm, hleb]

/-- Witness for C6: an exact case-insensitive trimmed match scores 1. -/
theorem select_scoring_and_threshold_witness :
    (stringSimilarity "Grade A" " grade a ").toRat = 1 :=
  select_scoring_and_threshold.1 "Grade A" " grade a " (by decide)

/-- C8: after a submit click with a success (`waitFor`) or error selector
declared — the error element appearing first within the 10 s window (100
polls) is a fatal failure carrying the error element's trimmed text;
neither element appearing in the window is the non-fatal
`Submission timed out` failure; the success element appearing (or no
selectors declared at all) is a success. -/
theorem submit_outcome_taxonomy (tgt : String) (waitFor errorSel : Option String)
    (presentAt : Nat → String → Bool) (textAt : Nat → String)
    (htgt : tgt ≠ "") :
    ((declaredSel waitFor || declaredSel errorSel) = false →
      executeSubmit (some tgt) waitFor errorSel true presentAt textAt
        = { success := true })
    ∧ (∀ t, t < 100 → hitSuccess waitFor presentAt t = true →
        (∀ u, u < t → hitError errorSel presentAt u = false) →
        executeSubmit (some tgt) waitFor errorSel true presentAt textAt
          = { success := true })
    ∧ (∀ t, t < 100 → hitError errorSel presentAt t = true →
        (∀ u, u ≤ t → hitSuccess waitFor presentAt u = false) →
        (∀ u, u < t → hitError errorSel presentAt u = false) →
        executeSubmit (some tgt) waitFor errorSel true presentAt textAt
          = { success := false,
              error := some ("Form error: " ++ jsOrS (strTrim (textAt t)) "Unknown error"),
              fatal := true })
    ∧ ((∀ t, t < 100 →
          hitSuccess waitFor presentAt t = false ∧ hitError errorSel presentAt t = false) →
        (declaredSel waitFor || declaredSel errorSel) = true →
        executeSubmit (some tgt) waitFor errorSel true presentAt textAt
          = { success := false, error := some "Submission timed out" }) := by
  refine ⟨?_, ?_, ?_, ?_⟩
  · intro hnone
    simp [executeSubmit, htgt, hnone]
  · intro t ht hs he
    have hd : declaredSel waitFor = true := by
      simp only [hitSuccess, Bool.and_eq_true] at hs
      exact hs.1
    have hwait : waitForEither waitFor errorSel presentAt textAt
        = WaitOutcome.success := by
      unfold waitForEither
      exact waitForEitherGo_success waitFor errorSel presentAt textAt 100 0 t
        (Nat.zero_le t) (by omega) hs fun u hu1 hu2 => he u hu2
    simp [executeSubmit, htgt, hd, hwait]
  · intro t ht herr hsu heu
    have hd : declaredSel errorSel = true := by
      simp only [hitError, Bool.and_eq_true] at herr
      exact herr.1
    have hwait : waitForEither waitFor errorSel presentAt textAt
        = WaitOutcome.error (textAt t) := by
      unfold waitForEither
      exact waitForEitherGo_error waitFor errorSel presentAt textAt 100 0 t
        (Nat.zero_le t) (by omega) herr
        (fun u hu1 hu2 => hsu u hu2)
        fun u hu1 hu2 => heu u hu2
    simp [executeSubmit, htgt, hd, hwait]
  · intro hquiet hdecl
    have hwait : waitForEither waitFor errorSel presentAt textAt
        = WaitOutcome.timeout := by
      unfold waitForEither
      exact waitForEitherGo_timeout waitFor errorSel presentAt textAt 100 0
        fun u hu1 hu2 => hquiet u (by omega)
    simp [executeSubmit, htgt, hdecl, hwait]

/-- Witness for C8: the error element appears at poll 2 and the failure
carries its trimmed text. -/
theorem submit_outcome_taxonomy_witness :
    executeSubmit (some "#go") (some "#ok") (some "#err") true
        (fun t s => s == "#err" && t == 2) (fun _ => " boom ")
      = { success := false,
          error := some ("Form error: " ++ jsOrS (strTrim " boom ") "Unknown error"),
          fatal := true } :=
  (submit_outcome_taxonomy "#go" (some "#ok") (some "#err")
      (fun t s => s == "#err" && t == 2) (fun _ => " boom ") (by decide)).2.2.1
    2 (by decide) (by decide) (by decide) (by decide)

/-- The label/input fragment of the spec's concrete scenario:
`<label for="f1">Full Name</label><input id="f1">`. -/
def sampleDom : Dom :=
  { labels := [{ text := "Full Name", htmlFor := "f1" }],
    byId := fun i => if i == "f1" then some ⟨"f1", "text"⟩ else none,
    queryCss := fun _ => none }

/-- C9: a `label:` reference finds a label whose text contains the query as
a case-insensitive substring and resolves it in priority order — the
element named by the `for` attribute (type-filtered), then a nested
control, then a control under the label's parent (type-filtered) — and on
the fragment `<label for="f1">Full Name</label><input id="f1">` the
reference `label:Full Name` resolves to the input with id `f1`. -/
theorem label_reference_resolution :
    findElement sampleDom "label:Full Name" = some ⟨"f1", "text"⟩
    ∧ (∀ (dom : Dom) (l : LabelNode) (rest : List LabelNode) (txt : String)
          (ty : Option String),
        jsIncludes (jsLower l.text.data) (jsLower txt.data) = false →
        findByLabelGo dom txt ty (l :: rest) = findByLabelGo dom txt ty rest)
    ∧ (∀ (dom : Dom) (l : LabelNode) (rest : List LabelNode) (txt : String)
          (ty : Option String) (e : DomElem),
        jsIncludes (jsLower l.text.data) (jsLower txt.data) = true →
        resolveByFor dom l ty = some e →
        findByLabelGo dom txt ty (l :: rest) = some e)
    ∧ (∀ (dom : Dom) (l : LabelNode) (rest : List LabelNode) (txt : String)
          (ty : Option String) (e : DomElem),
        jsIncludes (jsLower l.text.data) (jsLower txt.data) = true →
        resolveByFor dom l ty = none →
        l.nested = some e →
        findByLabelGo dom txt ty (l :: rest) = some e)
    ∧ (∀ (dom : Dom) (l : LabelNode) (rest : List LabelNode) (txt : String)
          (ty : Option String) (e : DomElem),
        jsIncludes (jsLower l.text.data) (jsLower txt.data) = true →
        resolveByFor dom l ty = none →
        l.nested = none →
        l.parentField = some e →
        typeOk ty e = true →
        findByLabelGo dom txt ty (l :: rest) = some e)
    ∧ (∀ (dom : Dom) (l : LabelNode) (ty : Option String) (e : DomElem),
        l.htmlFor ≠ "" →
        dom.byId l.htmlFor = some e →
        typeOk ty e = true →
        resolveByFor dom l ty = some e) := by
  refine ⟨by decide, ?_, ?_, ?_, ?_, ?_⟩
  · intro dom l rest txt ty hmiss
    simp [findByLabelGo, hmiss]
  · intro dom l rest txt ty e hmatch hfor
    simp [findByLabelGo, hmatch, resolveLabel, hfor]
  · intro dom l rest txt ty e hmatch hfor hnest
    simp [findByLabelGo, hmatch, resolveLabel, hfor, hnest]
  · intro dom l rest txt ty e hmatch hfor hnest hpar hty
    simp [findByLabelGo, hmatch, resolveLabel, hfor, hnest, hpar, hty]
  · intro dom l ty e hFor hbyid hty
    simp [resolveByFor, hFor, hbyid, hty]

/-- Witness for C9: the priority-1 (for-attribute) resolution applied to
the concrete fragment. -/
theorem label_reference_resolution_witness :
    findByLabelGo sampleDom "Full Name" none
        [{ text := "Full Name", htmlFor := "f1" }]
      = some ⟨"f1", "text"⟩ :=
  label_reference_resolution.2.2.1 sampleDom
    { text := "Full Name", htmlFor := "f1" } [] "Full Name" none
    ⟨"f1", "text"⟩ (by decide) (by decide)

end Glide
